import Mathlib

/-!
Verification of the golang-docs repository's least-trivial artifacts:
the in-memory service registry with its load balancer (present twice, in
`8-error-handling.go` and in the advanced-topics file), the sliding-window
rate limiter, the toy web server's API router and its user CRUD handlers.

Go maps are embedded as association lists with unique keys (`mapLookup`,
`mapInsert`, `mapErase`); Go's multiple return values `(T, error)` become
pairs `T × Option String` where `none` is the nil error; Go `int` is
embedded as unbounded `Int` and `time.Time`/`time.Duration` as `Nat`
timestamps.  All embedded code is single-threaded, so the `sync` mutexes
of the source have no observable effect and are dropped.
-/

namespace GoDocs

/-- Association-list embedding of a Go map: lookup of a key. -/
def mapLookup {κ V : Type} [DecidableEq κ] (m : List (κ × V)) (k : κ) : Option V :=
  match m with
  | [] => none
  | (k', v) :: rest => if k' = k then some v else mapLookup rest k

/-- Association-list embedding of a Go map: `m[k] = v` (replace or append). -/
def mapInsert {κ V : Type} [DecidableEq κ] (m : List (κ × V)) (k : κ) (v : V) :
    List (κ × V) :=
  match m with
  | [] => [(k, v)]
  | (k', v') :: rest =>
    if k' = k then (k, v) :: rest else (k', v') :: mapInsert rest k v

/-- Association-list embedding of a Go map: `delete(m, k)`. -/
def mapErase {κ V : Type} [DecidableEq κ] (m : List (κ × V)) (k : κ) :
    List (κ × V) :=
  match m with
  | [] => []
  | (k', v') :: rest => if k' = k then mapErase rest k else (k', v') :: mapErase rest k

theorem mapLookup_insert {κ V : Type} [DecidableEq κ] (m : List (κ × V)) (k k' : κ) (v : V) :
    mapLookup (mapInsert m k v) k' = if k = k' then some v else mapLookup m k' := by
  induction m with
  | nil => by_cases h : k = k' <;> simp [mapInsert, mapLookup, h]
  | cons p rest ih =>
    obtain ⟨k₀, v₀⟩ := p
    by_cases h₀ : k₀ = k
    · subst h₀
      by_cases h : k₀ = k' <;> simp [mapInsert, mapLookup, h]
    · by_cases h : k = k'
      · subst h
        simp [mapInsert, mapLookup, h₀, ih]
      · simp [mapInsert, mapLookup, h₀, ih, h]

theorem mapLookup_erase {κ V : Type} [DecidableEq κ] (m : List (κ × V)) (k k' : κ) :
    mapLookup (mapErase m k) k' = if k = k' then none else mapLookup m k' := by
  induction m with
  | nil => by_cases h : k = k' <;> simp [mapErase, mapLookup, h]
  | cons p rest ih =>
    obtain ⟨k₀, v₀⟩ := p
    by_cases h₀ : k₀ = k
    · subst h₀
      by_cases h : k₀ = k'
      · subst h
        simp [mapErase, ih]
      · simp [mapErase, mapLookup, h, ih]
    · by_cases h : k = k'
      · subst h
        simp [mapErase, mapLookup, h₀, ih]
      · simp [mapErase, mapLookup, h₀, ih, h]

theorem mem_mapInsert {κ V : Type} [DecidableEq κ] {m : List (κ × V)} {k : κ} {v : V}
    {p : κ × V} (hp : p ∈ mapInsert m k v) : p = (k, v) ∨ p ∈ m := by
  induction m with
  | nil => simpa [mapInsert] using hp
  | cons q rest ih =>
    obtain ⟨k₀, v₀⟩ := q
    by_cases h₀ : k₀ = k
    · simp only [mapInsert, h₀, if_pos rfl] at hp
      rcases List.mem_cons.1 hp with h | h
      · exact Or.inl h
      · exact Or.inr (List.mem_cons_of_mem _ h)
    · simp only [mapInsert, if_neg h₀] at hp
      rcases List.mem_cons.1 hp with h | h
      · exact Or.inr (h ▸ List.mem_cons_self _ _)
      · rcases ih h with h' | h'
        · exact Or.inl h'
        · exact Or.inr (List.mem_cons_of_mem _ h')

theorem mem_mapErase {κ V : Type} [DecidableEq κ] {m : List (κ × V)} {k : κ}
    {p : κ × V} (hp : p ∈ mapErase m k) : p ∈ m := by
  induction m with
  | nil => simp [mapErase] at hp
  | cons q rest ih =>
    obtain ⟨k₀, v₀⟩ := q
    by_cases h₀ : k₀ = k
    · simp only [mapErase, if_pos h₀] at hp
      exact List.mem_cons_of_mem _ (ih hp)
    · simp only [mapErase, if_neg h₀] at hp
      rcases List.mem_cons.1 hp with h | h
      · exact h ▸ List.mem_cons_self _ _
      · exact List.mem_cons_of_mem _ (ih h)

theorem mapLookup_mem {κ V : Type} [DecidableEq κ] {m : List (κ × V)} {k : κ} {v : V}
    (h : mapLookup m k = some v) : (k, v) ∈ m := by
  induction m with
  | nil => simp [mapLookup] at h
  | cons q rest ih =>
    obtain ⟨k₀, v₀⟩ := q
    by_cases h₀ : k₀ = k
    · subst h₀
      have hv : v₀ = v := by simpa [mapLookup] using h
      subst hv
      exact List.mem_cons_self _ _
    · simp only [mapLookup, if_neg h₀] at h
      exact List.mem_cons_of_mem _ (ih h)

end GoDocs

namespace GoDocs.Part006

/-- `InMemoryServiceRegistry` from the advanced-topics file (`part_006`):
a map from service name to the list of registered addresses. -/
structure InMemoryServiceRegistry where
  services : List (String × List String)
deriving DecidableEq

def NewInMemoryServiceRegistry : InMemoryServiceRegistry := ⟨[]⟩

/-- `Register`: appends `address` to the service's slice (a missing key reads
as the nil slice) and returns a nil error. -/
def Register (r : InMemoryServiceRegistry) (serviceName address : String) :
    InMemoryServiceRegistry × Option String :=
  (⟨mapInsert r.services serviceName
      (((mapLookup r.services serviceName).getD []) ++ [address])⟩, none)

/-- `Deregister`: deletes the key and returns a nil error. -/
def Deregister (r : InMemoryServiceRegistry) (serviceName : String) :
    InMemoryServiceRegistry × Option String :=
  (⟨mapErase r.services serviceName⟩, none)

/-- `Discover`: the registered addresses, or a not-found error when the key
is absent. -/
def Discover (r : InMemoryServiceRegistry) (serviceName : String) :
    List String × Option String :=
  match mapLookup r.services serviceName with
  | some addresses => (addresses, none)
  | none => ([], some ("服务 " ++ serviceName ++ " 未找到"))

/-- `HealthCheck`: true exactly when the key exists. -/
def HealthCheck (r : InMemoryServiceRegistry) (serviceName : String) : Bool :=
  (mapLookup r.services serviceName).isSome

/-- `LoadBalancer` wraps a registry and a strategy string that the code
never branches on. -/
structure LoadBalancer where
  registry : InMemoryServiceRegistry
  strategy : String

def NewLoadBalancer (registry : InMemoryServiceRegistry) : LoadBalancer :=
  ⟨registry, "round-robin"⟩

/-- `GetServiceAddress`: discover, propagate the error, reject an empty
slice, otherwise return `addresses[0]`. -/
def GetServiceAddress (lb : LoadBalancer) (serviceName : String) :
    String × Option String :=
  match Discover lb.registry serviceName with
  | (_, some e) => ("", some e)
  | (addresses, none) =>
    if addresses.length = 0 then ("", some "没有可用的服务实例")
    else (addresses.headD "", none)

end GoDocs.Part006

namespace GoDocs

open Part006

/-- C1: whenever `Discover` succeeds with a non-empty address list,
`GetServiceAddress` returns `addresses[0]` with a nil error, for every
strategy; when `Discover` fails, the error is propagated with an empty
address. -/
theorem getServiceAddress_first (r : InMemoryServiceRegistry)
    (strategy serviceName : String) :
    (∀ addresses, Discover r serviceName = (addresses, none) → addresses ≠ [] →
      GetServiceAddress ⟨r, strategy⟩ serviceName = (addresses.headD "", none)) ∧
    (∀ addresses e, Discover r serviceName = (addresses, some e) →
      GetServiceAddress ⟨r, strategy⟩ serviceName = ("", some e)) := by
  constructor
  · intro addresses h hne
    have hlen : addresses.length ≠ 0 := by
      simpa [List.length_eq_zero] using hne
    simp [GetServiceAddress, h, hlen]
  · intro addresses e h
    simp [GetServiceAddress, h]

/-- Witness for C1 at a concrete registry. -/
theorem getServiceAddress_first_witness :
    GetServiceAddress ⟨⟨[("svc", ["a1", "a2"])]⟩, "round-robin"⟩ "svc" =
      ("a1", none) :=
  (getServiceAddress_first ⟨[("svc", ["a1", "a2"])]⟩ "round-robin" "svc").1
    ["a1", "a2"] rfl (by decide)

/-- C2: two load balancers over the same registry state that differ only in
their strategy string return identical results for every service name. -/
theorem getServiceAddress_strategy_irrelevant (r : InMemoryServiceRegistry)
    (s₁ s₂ serviceName : String) :
    GetServiceAddress ⟨r, s₁⟩ serviceName = GetServiceAddress ⟨r, s₂⟩ serviceName := rfl

/-- A state-mutating registry operation. -/
inductive RegistryOp where
  | register (serviceName address : String)
  | deregister (serviceName : String)
deriving DecidableEq

def applyOp (r : InMemoryServiceRegistry) : RegistryOp → InMemoryServiceRegistry
  | .register n a => (Register r n a).1
  | .deregister n => (Deregister r n).1

def runOps (ops : List RegistryOp) : InMemoryServiceRegistry :=
  ops.foldl applyOp NewInMemoryServiceRegistry

/-- Per-name transition of the claim's wording, folded over the trace. -/
def traceEntry (name : String) (acc : Option (List String)) : RegistryOp → Option (List String)
  | .register n a => if n = name then some (acc.getD [] ++ [a]) else acc
  | .deregister n => if n = name then none else acc

/-- Formalization of the claim's wording: the addresses registered for `name`
since its last deregistration, in registration order; `none` when the name
was never registered, or was deregistered after its last registration. -/
def registeredSinceLastDeregister (ops : List RegistryOp) (name : String) :
    Option (List String) :=
  ops.foldl (traceEntry name) none

theorem lookup_foldl_ops (ops : List RegistryOp) (name : String) :
    ∀ (r : InMemoryServiceRegistry) (acc : Option (List String)),
      mapLookup r.services name = acc →
      mapLookup ((ops.foldl applyOp r).services) name =
        ops.foldl (traceEntry name) acc := by
  induction ops with
  | nil => intro r acc h; simpa using h
  | cons op rest ih =>
    intro r acc h
    simp only [List.foldl_cons]
    apply ih
    cases op with
    | register n a =>
      by_cases hn : n = name
      · subst hn
        simp [applyOp, Register, mapLookup_insert, traceEntry, h]
      · simp [applyOp, Register, mapLookup_insert, traceEntry, hn, h]
    | deregister n =>
      by_cases hn : n = name
      · subst hn
        simp [applyOp, Deregister, mapLookup_erase, traceEntry]
      · simp [applyOp, Deregister, mapLookup_erase, traceEntry, hn, h]

theorem lookup_runOps (ops : List RegistryOp) (name : String) :
    mapLookup ((runOps ops).services) name = registeredSinceLastDeregister ops name :=
  lookup_foldl_ops ops name NewInMemoryServiceRegistry none rfl

/-- C3: `Discover` fails exactly when the name is absent (never registered,
or deregistered since its last registration); otherwise it returns, with a
nil error, all addresses registered since the last deregistration in
registration order; `Register` always appends and returns a nil error. -/
theorem discover_iff_registered (ops : List RegistryOp) (name address : String) :
    ((Discover (runOps ops) name).2.isSome ↔
        registeredSinceLastDeregister ops name = none) ∧
    (∀ l, registeredSinceLastDeregister ops name = some l →
        Discover (runOps ops) name = (l, none)) ∧
    (∀ r : InMemoryServiceRegistry,
        (Register r name address).2 = none ∧
        mapLookup ((Register r name address).1.services) name =
          some (((mapLookup r.services name).getD []) ++ [address])) := by
  have hk := lookup_runOps ops name
  refine ⟨?_, ?_, ?_⟩
  · cases hr : registeredSinceLastDeregister ops name with
    | none => simp [Discover, hk, hr]
    | some l => simp [Discover, hk, hr]
  · intro l hl
    simp [Discover, hk, hl]
  · intro r
    exact ⟨rfl, by simp [Register, mapLookup_insert]⟩

/-- Witness for C3 on a concrete trace: register, deregister, re-register. -/
theorem discover_iff_registered_witness :
    Discover (runOps [RegistryOp.register "s" "a", RegistryOp.deregister "s",
      RegistryOp.register "s" "b", RegistryOp.register "s" "c"]) "s" =
      (["b", "c"], none) :=
  (discover_iff_registered [RegistryOp.register "s" "a", RegistryOp.deregister "s",
      RegistryOp.register "s" "b", RegistryOp.register "s" "c"] "s" "x").2.1
    ["b", "c"] (by decide)

theorem healthCheck_applyOp (r : InMemoryServiceRegistry) (name : String)
    (op : RegistryOp) (hop : op ≠ RegistryOp.deregister name)
    (h : HealthCheck r name = true) : HealthCheck (applyOp r op) name = true := by
  cases op with
  | register n a =>
    by_cases hn : n = name
    · subst hn
      simp [HealthCheck, applyOp, Register, mapLookup_insert]
    · simpa [HealthCheck, applyOp, Register, mapLookup_insert, hn] using h
  | deregister n =>
    have hn : n ≠ name := fun he => hop (by rw [he])
    simpa [HealthCheck, applyOp, Deregister, mapLookup_erase, hn] using h

theorem discover_err_of_healthCheck (r : InMemoryServiceRegistry) (name : String)
    (h : HealthCheck r name = true) : (Discover r name).2 = none := by
  cases hl : mapLookup r.services name with
  | none => simp [HealthCheck, hl] at h
  | some l => simp [Discover, hl]

/-- C4: once registered, a name stays present (`HealthCheck` true and
`Discover` succeeding) across every trace that contains no `Deregister` of
that name — there is no other eviction — and `Deregister` removes the whole
entry at once and returns a nil error. -/
theorem register_persists (r : InMemoryServiceRegistry) (name : String)
    (h : HealthCheck r name = true) :
    (∀ ops : List RegistryOp, RegistryOp.deregister name ∉ ops →
        HealthCheck (ops.foldl applyOp r) name = true ∧
        (Discover (ops.foldl applyOp r) name).2 = none) ∧
    ((Deregister r name).2 = none ∧
      mapLookup ((Deregister r name).1.services) name = none) := by
  constructor
  · intro ops
    induction ops generalizing r with
    | nil => intro _; exact ⟨h, discover_err_of_healthCheck r name h⟩
    | cons op rest ih =>
      intro hnot
      have hop : op ≠ RegistryOp.deregister name := fun he => hnot (he ▸ List.mem_cons_self _ _)
      have hrest : RegistryOp.deregister name ∉ rest := fun he => hnot (List.mem_cons_of_mem _ he)
      simpa using ih (applyOp r op) (healthCheck_applyOp r name op hop h) hrest
  · exact ⟨rfl, by simp [Deregister, mapLookup_erase]⟩

/-- Witness for C4 at a concrete registry and trace. -/
theorem register_persists_witness :
    HealthCheck ([RegistryOp.register "t" "x",
        RegistryOp.deregister "t"].foldl applyOp ⟨[("s", ["a"])]⟩) "s" = true ∧
    (Discover ([RegistryOp.register "t" "x",
        RegistryOp.deregister "t"].foldl applyOp ⟨[("s", ["a"])]⟩) "s").2 = none :=
  (register_persists ⟨[("s", ["a"])]⟩ "s" (by decide)).1
    [RegistryOp.register "t" "x", RegistryOp.deregister "t"] (by decide)

/-- Every value stored in the registry map is a non-empty address list. -/
def NonemptyVals (r : InMemoryServiceRegistry) : Prop :=
  ∀ name l, mapLookup r.services name = some l → l ≠ []

theorem nonemptyVals_applyOp {r : InMemoryServiceRegistry} (op : RegistryOp)
    (h : NonemptyVals r) : NonemptyVals (applyOp r op) := by
  cases op with
  | register n a =>
    intro name l hl
    by_cases hn : n = name
    · subst hn
      have hl' : ((mapLookup r.services n).getD [] ++ [a]) = l := by
        simpa [applyOp, Register, mapLookup_insert] using hl
      simp [← hl']
    · simp only [applyOp, Register, mapLookup_insert, if_neg hn] at hl
      exact h name l hl
  | deregister n =>
    intro name l hl
    by_cases hn : n = name
    · subst hn
      simp [applyOp, Deregister, mapLookup_erase] at hl
    · simp only [applyOp, Deregister, mapLookup_erase, if_neg hn] at hl
      exact h name l hl

theorem nonemptyVals_foldl (ops : List RegistryOp) :
    ∀ r : InMemoryServiceRegistry, NonemptyVals r →
      NonemptyVals (ops.foldl applyOp r) := by
  induction ops with
  | nil => intro r h; simpa using h
  | cons op rest ih =>
    intro r h
    simpa using ih (applyOp r op) (nonemptyVals_applyOp op h)

theorem data_ne_of_head {s t : String} {c d : Char} {cs ds : List Char}
    (hs : s.data = c :: cs) (ht : t.data = d :: ds) (hne : c ≠ d) : s ≠ t := by
  intro h
  rw [h, ht] at hs
  exact hne (List.cons.injEq .. ▸ hs).1.symm

theorem notFound_msg_ne (name : String) :
    ("服务 " ++ name ++ " 未找到") ≠ "没有可用的服务实例" := by
  apply @data_ne_of_head _ _ '服' '没' (("务 " ++ name ++ " 未找到").data)
    ("有可用的服务实例".data)
  · show (("服务 " ++ name) ++ " 未找到").data = _
    simp only [String.data_append]
    rfl
  · rfl
  · decide

/-- C8: in every reachable registry state each present name maps to a
non-empty list, so the "no available service instances" branch of
`GetServiceAddress` is unreachable: the only possible error is
`Discover`'s not-found error. -/
theorem reachable_nonempty (ops : List RegistryOp) :
    (∀ name l, mapLookup ((runOps ops).services) name = some l → l ≠ []) ∧
    (∀ name strategy,
        (GetServiceAddress ⟨runOps ops, strategy⟩ name).2 = none ∨
        (GetServiceAddress ⟨runOps ops, strategy⟩ name).2 =
          some ("服务 " ++ name ++ " 未找到")) ∧
    (∀ name strategy,
        (GetServiceAddress ⟨runOps ops, strategy⟩ name).2 ≠
          some "没有可用的服务实例") := by
  have hinv : NonemptyVals (runOps ops) :=
    nonemptyVals_foldl ops NewInMemoryServiceRegistry (by intro name l hl; simp [NewInMemoryServiceRegistry, mapLookup] at hl)
  refine ⟨hinv, ?_, ?_⟩
  · intro name strategy
    cases hl : mapLookup ((runOps ops).services) name with
    | none =>
      right
      simp [GetServiceAddress, Discover, hl]
    | some l =>
      left
      have hne : l.length ≠ 0 := by simpa [List.length_eq_zero] using hinv name l hl
      simp [GetServiceAddress, Discover, hl, hne]
  · intro name strategy h
    cases hl : mapLookup ((runOps ops).services) name with
    | none =>
      simp only [GetServiceAddress, Discover, hl] at h
      exact notFound_msg_ne name (by simpa using h)
    | some l =>
      have hne : l.length ≠ 0 := by simpa [List.length_eq_zero] using hinv name l hl
      simp [GetServiceAddress, Discover, hl, hne] at h

/-- Witness for C8 at a concrete trace. -/
theorem reachable_nonempty_witness :
    (["a"] : List String) ≠ [] :=
  (reachable_nonempty [RegistryOp.register "s" "a"]).1 "s" ["a"] (by decide)

end GoDocs

namespace GoDocs.ErrHandling

/-- The verbatim second copy of the registry, from `8-error-handling.go`. -/
structure InMemoryServiceRegistry where
  services : List (String × List String)
deriving DecidableEq

def NewInMemoryServiceRegistry : InMemoryServiceRegistry := ⟨[]⟩

def Register (r : InMemoryServiceRegistry) (serviceName address : String) :
    InMemoryServiceRegistry × Option String :=
  (⟨mapInsert r.services serviceName
      (((mapLookup r.services serviceName).getD []) ++ [address])⟩, none)

def Deregister (r : InMemoryServiceRegistry) (serviceName : String) :
    InMemoryServiceRegistry × Option String :=
  (⟨mapErase r.services serviceName⟩, none)

def Discover (r : InMemoryServiceRegistry) (serviceName : String) :
    List String × Option String :=
  match mapLookup r.services serviceName with
  | some addresses => (addresses, none)
  | none => ([], some ("服务 " ++ serviceName ++ " 未找到"))

def HealthCheck (r : InMemoryServiceRegistry) (serviceName : String) : Bool :=
  (mapLookup r.services serviceName).isSome

structure LoadBalancer where
  registry : InMemoryServiceRegistry
  strategy : String

def NewLoadBalancer (registry : InMemoryServiceRegistry) : LoadBalancer :=
  ⟨registry, "round-robin"⟩

def GetServiceAddress (lb : LoadBalancer) (serviceName : String) :
    String × Option String :=
  match Discover lb.registry serviceName with
  | (_, some e) => ("", some e)
  | (addresses, none) =>
    if addresses.length = 0 then ("", some "没有可用的服务实例")
    else (addresses.headD "", none)

end GoDocs.ErrHandling

namespace GoDocs

/-- A call through the public interface of the registry / load balancer. -/
inductive SvcOp where
  | register (serviceName address : String)
  | deregister (serviceName : String)
  | discover (serviceName : String)
  | healthCheck (serviceName : String)
  | getServiceAddress (serviceName : String)
deriving DecidableEq

/-- The observable result of one such call. -/
inductive SvcOut where
  | unitOut (e : Option String)
  | addrsOut (l : List String) (e : Option String)
  | healthyOut (b : Bool)
  | addrOut (a : String) (e : Option String)
deriving DecidableEq

def Part006.stepOp (r : Part006.InMemoryServiceRegistry) :
    SvcOp → Part006.InMemoryServiceRegistry × SvcOut
  | .register n a => ((Part006.Register r n a).1, .unitOut (Part006.Register r n a).2)
  | .deregister n => ((Part006.Deregister r n).1, .unitOut (Part006.Deregister r n).2)
  | .discover n => (r, .addrsOut (Part006.Discover r n).1 (Part006.Discover r n).2)
  | .healthCheck n => (r, .healthyOut (Part006.HealthCheck r n))
  | .getServiceAddress n =>
      (r, .addrOut (Part006.GetServiceAddress (Part006.NewLoadBalancer r) n).1
            (Part006.GetServiceAddress (Part006.NewLoadBalancer r) n).2)

def Part006.runSvc (r : Part006.InMemoryServiceRegistry) :
    List SvcOp → List SvcOut × Part006.InMemoryServiceRegistry
  | [] => ([], r)
  | op :: rest =>
      let p := Part006.stepOp r op
      let q := Part006.runSvc p.1 rest
      (p.2 :: q.1, q.2)

def ErrHandling.stepOp (r : ErrHandling.InMemoryServiceRegistry) :
    SvcOp → ErrHandling.InMemoryServiceRegistry × SvcOut
  | .register n a => ((ErrHandling.Register r n a).1, .unitOut (ErrHandling.Register r n a).2)
  | .deregister n => ((ErrHandling.Deregister r n).1, .unitOut (ErrHandling.Deregister r n).2)
  | .discover n => (r, .addrsOut (ErrHandling.Discover r n).1 (ErrHandling.Discover r n).2)
  | .healthCheck n => (r, .healthyOut (ErrHandling.HealthCheck r n))
  | .getServiceAddress n =>
      (r, .addrOut (ErrHandling.GetServiceAddress (ErrHandling.NewLoadBalancer r) n).1
            (ErrHandling.GetServiceAddress (ErrHandling.NewLoadBalancer r) n).2)

def ErrHandling.runSvc (r : ErrHandling.InMemoryServiceRegistry) :
    List SvcOp → List SvcOut × ErrHandling.InMemoryServiceRegistry
  | [] => ([], r)
  | op :: rest =>
      let p := ErrHandling.stepOp r op
      let q := ErrHandling.runSvc p.1 rest
      (p.2 :: q.1, q.2)

/-- The field-for-field translation between the two copies' states. -/
def toEH (r : Part006.InMemoryServiceRegistry) : ErrHandling.InMemoryServiceRegistry :=
  ⟨r.services⟩

theorem stepOp_toEH (r : Part006.InMemoryServiceRegistry) (op : SvcOp) :
    ErrHandling.stepOp (toEH r) op =
      (toEH (Part006.stepOp r op).1, (Part006.stepOp r op).2) := by
  cases op <;> rfl

theorem runSvc_toEH (ops : List SvcOp) :
    ∀ r : Part006.InMemoryServiceRegistry,
      ErrHandling.runSvc (toEH r) ops =
        ((Part006.runSvc r ops).1, toEH (Part006.runSvc r ops).2) := by
  induction ops with
  | nil => intro r; rfl
  | cons op rest ih =>
    intro r
    simp only [ErrHandling.runSvc, Part006.runSvc, stepOp_toEH, ih]

/-- C7: the two textual copies of the registry plus load balancer are
extensionally equivalent — every call sequence through the public
interface yields the same outputs and the same final services map. -/
theorem copies_equivalent (ops : List SvcOp) :
    (ErrHandling.runSvc ErrHandling.NewInMemoryServiceRegistry ops).1 =
      (Part006.runSvc Part006.NewInMemoryServiceRegistry ops).1 ∧
    (ErrHandling.runSvc ErrHandling.NewInMemoryServiceRegistry ops).2.services =
      (Part006.runSvc Part006.NewInMemoryServiceRegistry ops).2.services := by
  have h := runSvc_toEH ops Part006.NewInMemoryServiceRegistry
  have hnew : toEH Part006.NewInMemoryServiceRegistry =
      ErrHandling.NewInMemoryServiceRegistry := rfl
  rw [hnew] at h
  rw [h]
  exact ⟨rfl, rfl⟩

end GoDocs

namespace GoDocs.WebServer

/-- Embedding of Go `strings.HasPrefix` on the underlying byte/char data. -/
def HasPrefix (s pre : String) : Bool := pre.data.isPrefixOf s.data

/-- Embedding of Go `strings.TrimPrefix`. -/
def TrimPrefix (s pre : String) : String :=
  if pre.data.isPrefixOf s.data then ⟨s.data.drop pre.data.length⟩ else s

/-- Which handler `handleAPI` in `10-web-server.go` dispatches to. -/
inductive APIRoute where
  | health
  | stats
  | users
  | posts
  | notFound
deriving DecidableEq

/-- The `switch` of `handleAPI`, in source order. -/
def handleAPI (path : String) : APIRoute :=
  if path = "/health" then .health
  else if path = "/stats" then .stats
  else if path = "/users" ∨ HasPrefix path "/users/" = true then .users
  else if path = "/posts" ∨ HasPrefix path "/posts/" = true then .posts
  else .notFound

theorem users_posts_prefix_disjoint (path : String)
    (h1 : HasPrefix path "/users/" = true)
    (h2 : HasPrefix path "/posts/" = true) : False := by
  have h1' : "/users/".data <+: path.data := by
    simpa [HasPrefix] using h1
  have h2' : "/posts/".data <+: path.data := by
    simpa [HasPrefix] using h2
  have hle : ("/users/".data).length ≤ ("/posts/".data).length := by decide
  have hpre := List.prefix_of_prefix_length_le h1' h2' hle
  have heq : ("/users/".data) = ("/posts/".data) :=
    List.IsPrefix.eq_of_length hpre (by decide)
  exact absurd heq (by decide)

/-- C6: `handleAPI` routes to the health handler exactly on `/health`, the
stats handler exactly on `/stats`, the users handler exactly on `/users` or
a `/users/`-prefixed path, the posts handler exactly on `/posts` or a
`/posts/`-prefixed path, and responds 404 on every other path. -/
theorem handleAPI_routes (path : String) :
    (handleAPI path = .health ↔ path = "/health") ∧
    (handleAPI path = .stats ↔ path = "/stats") ∧
    (handleAPI path = .users ↔
      (path = "/users" ∨ HasPrefix path "/users/" = true)) ∧
    (handleAPI path = .posts ↔
      (path = "/posts" ∨ HasPrefix path "/posts/" = true)) ∧
    (handleAPI path = .notFound ↔
      ¬(path = "/health" ∨ path = "/stats" ∨ path = "/users" ∨
        HasPrefix path "/users/" = true ∨ path = "/posts" ∨
        HasPrefix path "/posts/" = true)) := by
  by_cases h1 : path = "/health"
  · subst h1; decide
  by_cases h2 : path = "/stats"
  · subst h2; decide
  by_cases h3 : path = "/users"
  · subst h3; decide
  by_cases h4 : path = "/posts"
  · subst h4; decide
  by_cases h5 : HasPrefix path "/users/" = true
  · have h6 : ¬ HasPrefix path "/posts/" = true := fun hc =>
      users_posts_prefix_disjoint path h5 hc
    have hroute : handleAPI path = .users := by
      simp [handleAPI, h1, h2, h3, h5]
    simp [hroute, h1, h2, h3, h4, h5, h6]
  by_cases h6 : HasPrefix path "/posts/" = true
  · have hroute : handleAPI path = .posts := by
      simp [handleAPI, h1, h2, h3, h4, h5, h6]
    simp [hroute, h1, h2, h3, h4, h5, h6]
  · have hroute : handleAPI path = .notFound := by
      simp [handleAPI, h1, h2, h3, h4, h5, h6]
    simp [hroute, h1, h2, h3, h4, h5, h6]

/-- The `User` struct of `10-web-server.go`; Go `int` is embedded as `Int`. -/
structure User where
  ID : Int
  Name : String
  Email : String
  Age : Int
  Created : String
deriving DecidableEq

/-- The mutable globals of the toy web server that the user handlers touch. -/
structure ServerState where
  users : List (Int × User)
  nextUserID : Int
deriving DecidableEq

/-- An observable HTTP response of the user handlers. -/
inductive HttpResponse where
  | jsonUser (status : Nat) (u : User)
  | httpError (status : Nat) (msg : String)
  | noContent
deriving DecidableEq

def digitsToNat : List Char → Nat → Option Nat
  | [], acc => some acc
  | c :: cs, acc =>
    if '0' ≤ c ∧ c ≤ '9' then digitsToNat cs (acc * 10 + (c.toNat - '0'.toNat))
    else none

/-- Largest magnitude accepted by `strconv.Atoi` for a non-negative
numeral: Go `int` is 64-bit, so the maximum is `2^63 - 1`. -/
def intMax : Nat := 9223372036854775807

/-- Embedding of `strconv.Atoi`: optional sign followed by at least one
decimal digit; anything else is a syntax error, and a numeral whose value
lies outside the 64-bit `int` range is a range error (`ErrRange`).  Both
error kinds make Go's `err != nil`, so both are embedded as `none`. -/
def Atoi (s : String) : Option Int :=
  match s.data with
  | [] => none
  | '+' :: cs =>
    if cs = [] then none
    else (digitsToNat cs 0).bind (fun n =>
      if n ≤ intMax then some ((n : Int)) else none)
  | '-' :: cs =>
    if cs = [] then none
    else (digitsToNat cs 0).bind (fun n =>
      if n ≤ intMax + 1 then some (-(n : Int)) else none)
  | cs =>
    (digitsToNat cs 0).bind (fun n =>
      if n ≤ intMax then some ((n : Int)) else none)

/-- `createUser`: decode the JSON body (`none` = decode error → 400),
assign the fresh `nextUserID` and the current time, bump the counter,
store, respond 201 with the stored user. -/
def createUser (s : ServerState) (body : Option User) (now : String) :
    ServerState × HttpResponse :=
  match body with
  | none => (s, .httpError 400 "无效的JSON数据")
  | some user =>
      let user' : User := { user with ID := s.nextUserID, Created := now }
      (⟨mapInsert s.users s.nextUserID user', s.nextUserID + 1⟩, .jsonUser 201 user')

/-- `updateUser`: parse the id from the URL path, decode the body, check
existence, then overwrite the decoded ID with the URL id and store. -/
def updateUser (s : ServerState) (path : String) (body : Option User) :
    ServerState × HttpResponse :=
  match Atoi ( TrimPrefix path "/users/") with
  | none => (s, .httpError 400 "无效的用户ID")
  | some id =>
    match body with
    | none => (s, .httpError 400 "无效的JSON数据")
    | some user =>
      match mapLookup s.users id with
      | none => (s, .httpError 404 "用户不存在")
      | some _ =>
          let user' : User := { user with ID := id }
          (⟨mapInsert s.users id user', s.nextUserID⟩, .jsonUser 200 user')

/-- `deleteUser`: parse the id from the URL path, check existence, delete,
respond 204. -/
def deleteUser (s : ServerState) (path : String) : ServerState × HttpResponse :=
  match Atoi ( TrimPrefix path "/users/") with
  | none => (s, .httpError 400 "无效的用户ID")
  | some id =>
    match mapLookup s.users id with
    | none => (s, .httpError 404 "用户不存在")
    | some _ => (⟨mapErase s.users id, s.nextUserID⟩, .noContent)

/-- Every stored user's `ID` equals its map key, and every key is below
`nextUserID`. -/
def UsersInv (s : ServerState) : Prop :=
  ∀ p ∈ s.users, p.2.ID = p.1 ∧ p.1 < s.nextUserID

/-- C9: the user handlers preserve the key/ID invariant; `createUser`
stores under the fresh `nextUserID` (which cannot collide with an existing
key) and increments the counter; `updateUser` overwrites the decoded ID
with the URL id, so an update never changes a user's ID or moves the
record to a different key. -/
theorem users_invariant (s : ServerState) (hInv : UsersInv s) :
    (∀ body now, UsersInv (createUser s body now).1) ∧
    (∀ path body, UsersInv (updateUser s path body).1) ∧
    (∀ path, UsersInv (deleteUser s path).1) ∧
    (mapLookup s.users s.nextUserID = none) ∧
    (∀ u now, (createUser s (some u) now).1.nextUserID = s.nextUserID + 1 ∧
        mapLookup ((createUser s (some u) now).1.users) s.nextUserID =
          some { u with ID := s.nextUserID, Created := now }) ∧
    (∀ path body s' c u, updateUser s path body = (s', .jsonUser c u) →
        ∀ id, Atoi ( TrimPrefix path "/users/") = some id →
          u.ID = id ∧ mapLookup s'.users id = some u ∧
          ∀ k, k ≠ id → mapLookup s'.users k = mapLookup s.users k) := by
  refine ⟨?_, ?_, ?_, ?_, ?_, ?_⟩
  · intro body now
    cases body with
    | none => exact hInv
    | some user =>
      intro p hp
      rcases mem_mapInsert hp with h | h
      · subst h
        refine ⟨rfl, ?_⟩
        simp only [createUser]
        omega
      · rcases hInv p h with ⟨hid, hlt⟩
        refine ⟨hid, ?_⟩
        simp only [createUser]
        omega
  · intro path body
    cases hid : Atoi ( TrimPrefix path "/users/") with
    | none => simpa [updateUser, hid] using hInv
    | some id =>
      cases body with
      | none => simpa [updateUser, hid] using hInv
      | some user =>
        cases hl : mapLookup s.users id with
        | none => simpa [updateUser, hid, hl] using hInv
        | some old =>
          have hklt : id < s.nextUserID := (hInv (id, old) (mapLookup_mem hl)).2
          simp only [updateUser, hid, hl]
          intro p hp
          rcases mem_mapInsert hp with h | h
          · subst h
            exact ⟨rfl, hklt⟩
          · exact hInv p h
  · intro path
    cases hid : Atoi ( TrimPrefix path "/users/") with
    | none => simpa [deleteUser, hid] using hInv
    | some id =>
      cases hl : mapLookup s.users id with
      | none => simpa [deleteUser, hid, hl] using hInv
      | some old =>
        simp only [deleteUser, hid, hl]
        intro p hp
        exact hInv p (mem_mapErase hp)
  · cases h : mapLookup s.users s.nextUserID with
    | none => rfl
    | some u =>
      have := (hInv (s.nextUserID, u) (mapLookup_mem h)).2
      exact absurd this (lt_irrefl _)
  · intro u now
    exact ⟨rfl, by simp [createUser, mapLookup_insert]⟩
  · intro path body s' c u heq id hid
    cases body with
    | none => simp [updateUser, hid] at heq
    | some user =>
      cases hl : mapLookup s.users id with
      | none => simp [updateUser, hid, hl] at heq
      | some old =>
        simp only [updateUser, hid, hl, Prod.mk.injEq, HttpResponse.jsonUser.injEq] at heq
        obtain ⟨hs', -, hu⟩ := heq
        subst hs'
        subst hu
        refine ⟨rfl, ?_, ?_⟩
        · simp [mapLookup_insert]
        · intro k hk
          have hk' : id ≠ k := fun h => hk h.symm
          simp [mapLookup_insert, hk']

/-- Witness for C9: the fresh id is unused in a concrete valid state. -/
theorem users_invariant_witness :
    mapLookup ([((1 : Int), User.mk 1 "n" "e" 30 "c")]) (2 : Int) = none :=
  (users_invariant ⟨[(1, User.mk 1 "n" "e" 30 "c")], 2⟩
    (by unfold UsersInv; decide)).2.2.2.1

/-- C10: `updateUser` and `deleteUser` are atomic on error — a 400 from a
non-integer id segment, a 400 from an undecodable body (`updateUser` only)
and a 404 from a missing user all leave the state unchanged. -/
theorem update_delete_atomic (s : ServerState) (path : String) (body : Option User) :
    (Atoi ( TrimPrefix path "/users/") = none →
        updateUser s path body = (s, .httpError 400 "无效的用户ID") ∧
        deleteUser s path = (s, .httpError 400 "无效的用户ID")) ∧
    (∀ id, Atoi ( TrimPrefix path "/users/") = some id → body = none →
        updateUser s path body = (s, .httpError 400 "无效的JSON数据")) ∧
    (∀ id, Atoi ( TrimPrefix path "/users/") = some id →
        mapLookup s.users id = none →
        (∀ u, body = some u →
            updateUser s path body = (s, .httpError 404 "用户不存在")) ∧
        deleteUser s path = (s, .httpError 404 "用户不存在")) := by
  refine ⟨?_, ?_, ?_⟩
  · intro h
    exact ⟨by simp [updateUser, h], by simp [deleteUser, h]⟩
  · intro id hid hb
    subst hb
    simp [updateUser, hid]
  · intro id hid hl
    refine ⟨?_, by simp [deleteUser, hid, hl]⟩
    intro u hb
    subst hb
    simp [updateUser, hid, hl]

/-- Witness for C10 on a concrete non-numeric id segment and on a numeral
beyond the 64-bit `int` range, which `strconv.Atoi` rejects as well. -/
theorem update_delete_atomic_witness :
    (updateUser ⟨[], 1⟩ "/users/abc" none =
        (⟨[], 1⟩, .httpError 400 "无效的用户ID") ∧
      deleteUser ⟨[], 1⟩ "/users/abc" =
        (⟨[], 1⟩, .httpError 400 "无效的用户ID")) ∧
    (updateUser ⟨[], 1⟩ "/users/99999999999999999999" none =
        (⟨[], 1⟩, .httpError 400 "无效的用户ID") ∧
      deleteUser ⟨[], 1⟩ "/users/99999999999999999999" =
        (⟨[], 1⟩, .httpError 400 "无效的用户ID")) :=
  ⟨(update_delete_atomic ⟨[], 1⟩ "/users/abc" none).1 (by decide),
    (update_delete_atomic ⟨[], 1⟩ "/users/99999999999999999999" none).1 (by decide)⟩

end GoDocs.WebServer

namespace GoDocs

/-- The `RateLimiter` of the advanced-topics file: per-key timestamp lists,
a request limit, and a window; `time.Time` and `time.Duration` are
embedded as `Nat` (the window of an actual limiter is non-negative). -/
structure RateLimiter where
  requests : List (String × List Nat)
  limit : Nat
  window : Nat
deriving DecidableEq

def NewRateLimiter (limit window : Nat) : RateLimiter := ⟨[], limit, window⟩

/-- `Allow` from the source, with `time.Now()` passed in as `now`: if the
key exists, overwrite its list with the timestamps satisfying
`now.Sub(reqTime) <= window`; refuse when at least `limit` remain;
otherwise append `now` and accept.  (For `reqTime > now` Go's signed
`Sub` is negative hence `<= window`; `Nat` subtraction agrees, giving `0`.) -/
def pruneRL (rl : RateLimiter) (key : String) (now : Nat) : List (String × List Nat) :=
  match mapLookup rl.requests key with
  | some requests =>
      mapInsert rl.requests key
        (requests.filter (fun t => decide (now - t ≤ rl.window)))
  | none => rl.requests

def Allow (rl : RateLimiter) (key : String) (now : Nat) : Bool × RateLimiter :=
  let pruned := pruneRL rl key now
  if rl.limit ≤ ((mapLookup pruned key).getD []).length then
    (false, { rl with requests := pruned })
  else
    (true,
      { rl with
          requests := mapInsert pruned key (((mapLookup pruned key).getD []) ++ [now]) })

/-- Run a trace of `(key, timestamp)` calls, annotating each with its result. -/
def runAllow (rl : RateLimiter) : List (String × Nat) → List ((String × Nat) × Bool)
  | [] => []
  | (key, now) :: rest =>
      ((key, now), (Allow rl key now).1) :: runAllow (Allow rl key now).2 rest

/-- The stored timestamp list for a key. -/
def timesOf (rl : RateLimiter) (key : String) : List Nat :=
  (mapLookup rl.requests key).getD []

/-- The timestamps of the calls for `key` in a trace that returned true. -/
def trueTimes (h : List ((String × Nat) × Bool)) (key : String) : List Nat :=
  (h.filter (fun e => e.1.1 == key && e.2)).map (fun e => e.1.2)

/-- How many true-returning calls for `key` have their timestamp within the
trailing window of length `window` before `now`. -/
def withinWindowTrue (window : Nat) (key : String) (now : Nat)
    (h : List ((String × Nat) × Bool)) : Nat :=
  ((trueTimes h key).filter (fun t => decide (now - t ≤ window))).length

/-- How many true-returning calls for `key` have their timestamp inside the
closed interval `[a, a + window]`. -/
def trueInInterval (key : String) (a window : Nat)
    (l : List ((String × Nat) × Bool)) : Nat :=
  ((trueTimes l key).filter (fun t => decide (a ≤ t ∧ t ≤ a + window))).length

theorem trueTimes_append (h₁ h₂ : List ((String × Nat) × Bool)) (key : String) :
    trueTimes (h₁ ++ h₂) key = trueTimes h₁ key ++ trueTimes h₂ key := by
  simp [trueTimes, List.filter_append]

theorem trueTimes_le {h : List ((String × Nat) × Bool)} {key : String} {b : Nat}
    (hb : ∀ e ∈ h, e.1.2 ≤ b) : ∀ t ∈ trueTimes h key, t ≤ b := by
  intro t ht
  simp only [trueTimes, List.mem_map, List.mem_filter] at ht
  obtain ⟨e, ⟨he, -⟩, rfl⟩ := ht
  exact hb e he

theorem length_filter_mono {α : Type} (L : List α) (p q : α → Bool)
    (hpq : ∀ x ∈ L, p x = true → q x = true) :
    (L.filter p).length ≤ (L.filter q).length := by
  induction L with
  | nil => simp
  | cons x L ih =>
    have ih' := ih (fun y hy => hpq y (List.mem_cons_of_mem _ hy))
    by_cases hp : p x = true
    · have hq := hpq x (List.mem_cons_self _ _) hp
      simp only [List.filter_cons, hp, if_pos, hq, List.length_cons]
      omega
    · by_cases hq : q x = true <;>
        simp only [List.filter_cons, hp, hq, Bool.false_eq_true, if_false, if_true,
          List.length_cons] <;> omega

theorem filter_window_twice (w t₀ now : Nat) (L : List Nat)
    (hb : ∀ t ∈ L, t ≤ t₀) (ht : t₀ ≤ now) :
    (L.filter (fun t => decide (t₀ - t ≤ w))).filter (fun t => decide (now - t ≤ w)) =
      L.filter (fun t => decide (now - t ≤ w)) := by
  induction L with
  | nil => rfl
  | cons x L ih =>
    have hx : x ≤ t₀ := hb x (List.mem_cons_self _ _)
    have ih' := ih (fun y hy => hb y (List.mem_cons_of_mem _ hy))
    by_cases h1 : t₀ - x ≤ w
    · by_cases h2 : now - x ≤ w
      · rw [List.filter_cons, if_pos (by rw [decide_eq_true_eq]; omega),
          List.filter_cons, if_pos (by rw [decide_eq_true_eq]; omega),
          List.filter_cons, if_pos (by rw [decide_eq_true_eq]; omega), ih']
      · rw [List.filter_cons, if_pos (by rw [decide_eq_true_eq]; omega),
          List.filter_cons, if_neg (by rw [decide_eq_true_eq]; omega),
          List.filter_cons, if_neg (by rw [decide_eq_true_eq]; omega), ih']
    · have h2 : ¬ now - x ≤ w := by omega
      rw [List.filter_cons, if_neg (by rw [decide_eq_true_eq]; omega),
        List.filter_cons, if_neg (by rw [decide_eq_true_eq]; omega), ih']

theorem allow_eq (rl : RateLimiter) (key : String) (now : Nat) :
    Allow rl key now =
      if rl.limit ≤ ((mapLookup (pruneRL rl key now) key).getD []).length then
        (false, { rl with requests := pruneRL rl key now })
      else
        (true,
          { rl with
              requests := mapInsert (pruneRL rl key now) key
                (((mapLookup (pruneRL rl key now) key).getD []) ++ [now]) }) := by
  simp only [Allow]

theorem allow_limit (rl : RateLimiter) (key : String) (now : Nat) :
    (Allow rl key now).2.limit = rl.limit := by
  by_cases h : rl.limit ≤ ((mapLookup (pruneRL rl key now) key).getD []).length
  · rw [allow_eq, if_pos h]
  · rw [allow_eq, if_neg h]

theorem allow_window (rl : RateLimiter) (key : String) (now : Nat) :
    (Allow rl key now).2.window = rl.window := by
  by_cases h : rl.limit ≤ ((mapLookup (pruneRL rl key now) key).getD []).length
  · rw [allow_eq, if_pos h]
  · rw [allow_eq, if_neg h]

theorem prune_getD (rl : RateLimiter) (key : String) (now : Nat) :
    ((mapLookup (pruneRL rl key now) key).getD []) =
      (timesOf rl key).filter (fun t => decide (now - t ≤ rl.window)) := by
  cases hLk : mapLookup rl.requests key with
  | none => simp [pruneRL, hLk, timesOf]
  | some reqs => simp [pruneRL, hLk, timesOf, mapLookup_insert]

theorem prune_lookup_ne (rl : RateLimiter) (key k : String) (now : Nat)
    (hne : key ≠ k) :
    mapLookup (pruneRL rl key now) k = mapLookup rl.requests k := by
  cases hLk : mapLookup rl.requests key with
  | none => simp [pruneRL, hLk]
  | some reqs => simp [pruneRL, hLk, mapLookup_insert, hne]

theorem allow_false_iff (rl : RateLimiter) (key : String) (now : Nat) :
    (Allow rl key now).1 = false ↔
      rl.limit ≤
        ((timesOf rl key).filter (fun t => decide (now - t ≤ rl.window))).length := by
  by_cases h : rl.limit ≤ ((mapLookup (pruneRL rl key now) key).getD []).length
  · rw [allow_eq, if_pos h]
    rw [prune_getD] at h
    exact iff_of_true rfl h
  · rw [allow_eq, if_neg h]
    rw [prune_getD] at h
    exact iff_of_false (by simp) h

theorem allow_timesOf_self (rl : RateLimiter) (key : String) (now : Nat) :
    timesOf (Allow rl key now).2 key =
      ((timesOf rl key).filter (fun t => decide (now - t ≤ rl.window))) ++
        (if (Allow rl key now).1 then [now] else []) := by
  by_cases h : rl.limit ≤ ((mapLookup (pruneRL rl key now) key).getD []).length
  · rw [allow_eq, if_pos h]
    simp [timesOf, prune_getD]
  · rw [allow_eq, if_neg h]
    simp [timesOf, mapLookup_insert, prune_getD]

theorem allow_timesOf_ne (rl : RateLimiter) (key k : String) (now : Nat)
    (hne : key ≠ k) :
    timesOf (Allow rl key now).2 k = timesOf rl k := by
  by_cases h : rl.limit ≤ ((mapLookup (pruneRL rl key now) key).getD []).length
  · rw [allow_eq, if_pos h]
    simp [timesOf, prune_lookup_ne rl key k now hne]
  · rw [allow_eq, if_neg h]
    simp [timesOf, mapLookup_insert, hne, prune_lookup_ne rl key k now hne]

/-- Coherence of a limiter state with the trace history that produced it:
under any later observation instant, the pruned stored timestamps for each
key agree with the pruned timestamps of that key's true-returning calls. -/
def Coh (window : Nat) (h : List ((String × Nat) × Bool)) (rl : RateLimiter) : Prop :=
  ∀ key now, (∀ e ∈ h, e.1.2 ≤ now) →
    (timesOf rl key).filter (fun t => decide (now - t ≤ window)) =
      (trueTimes h key).filter (fun t => decide (now - t ≤ window))

theorem coh_init (limit window : Nat) : Coh window [] (NewRateLimiter limit window) := by
  intro key now _
  rfl

theorem coh_allow (rl : RateLimiter) (h : List ((String × Nat) × Bool))
    (k₀ : String) (t₀ : Nat) (hcoh : Coh rl.window h rl)
    (hb : ∀ e ∈ h, e.1.2 ≤ t₀) :
    Coh rl.window (h ++ [((k₀, t₀), (Allow rl k₀ t₀).1)]) (Allow rl k₀ t₀).2 := by
  intro key now hbound
  have hbh : ∀ e ∈ h, e.1.2 ≤ now := fun e he =>
    hbound e (List.mem_append_left _ he)
  have ht₀ : t₀ ≤ now := by
    have := hbound ((k₀, t₀), (Allow rl k₀ t₀).1) (List.mem_append_right _ (List.mem_cons_self _ _))
    simpa using this
  by_cases hkey : k₀ = key
  · subst hkey
    rw [allow_timesOf_self, trueTimes_append, List.filter_append, List.filter_append]
    have hmain :
        ((timesOf rl k₀).filter (fun t => decide (t₀ - t ≤ rl.window))).filter
            (fun t => decide (now - t ≤ rl.window)) =
          (trueTimes h k₀).filter (fun t => decide (now - t ≤ rl.window)) := by
      rw [hcoh k₀ t₀ hb]
      exact filter_window_twice rl.window t₀ now (trueTimes h k₀) (trueTimes_le hb) ht₀
    rw [hmain]
    congr 1
    cases hb₀ : (Allow rl k₀ t₀).1 <;>
      simp [trueTimes, List.filter_cons, hb₀]
  · rw [allow_timesOf_ne rl k₀ key t₀ hkey, trueTimes_append, List.filter_append]
    have hsingle : trueTimes [((k₀, t₀), (Allow rl k₀ t₀).1)] key = [] := by
      have : (k₀ == key) = false := by
        simpa using hkey
      simp [trueTimes, List.filter_cons, this]
    rw [hsingle]
    simpa using hcoh key now hbh

theorem runAllow_count (calls : List (String × Nat)) :
    ∀ (rl : RateLimiter) (h : List ((String × Nat) × Bool)),
      Coh rl.window h rl →
      (∀ e ∈ h, ∀ c ∈ calls, e.1.2 ≤ c.2) →
      List.Pairwise (fun a b : String × Nat => a.2 ≤ b.2) calls →
      ∀ pre key now b suf,
        runAllow rl calls = pre ++ ((key, now), b) :: suf →
        (b = false ↔ rl.limit ≤ withinWindowTrue rl.window key now (h ++ pre)) := by
  induction calls with
  | nil =>
    intro rl h _ _ _ pre key now b suf hrun
    cases pre <;> simp [runAllow] at hrun
  | cons c rest ih =>
    obtain ⟨k₀, t₀⟩ := c
    intro rl h hcoh hhb hmono pre key now b suf hrun
    have hbt₀ : ∀ e ∈ h, e.1.2 ≤ t₀ := fun e he =>
      hhb e he (k₀, t₀) (List.mem_cons_self _ _)
    rcases List.pairwise_cons.1 hmono with ⟨hhead, hrest⟩
    cases pre with
    | nil =>
      simp only [runAllow, List.nil_append, List.cons.injEq, Prod.mk.injEq] at hrun
      obtain ⟨⟨⟨hk, ht⟩, hb₀⟩, -⟩ := hrun
      subst hk
      subst ht
      subst hb₀
      rw [List.append_nil]
      rw [allow_false_iff]
      unfold withinWindowTrue
      rw [hcoh k₀ t₀ hbt₀]
    | cons e pre' =>
      simp only [runAllow, List.cons_append, List.cons.injEq] at hrun
      obtain ⟨he, hrun'⟩ := hrun
      have hwin := allow_window rl k₀ t₀
      have hlim := allow_limit rl k₀ t₀
      have hcoh' : Coh (Allow rl k₀ t₀).2.window
          (h ++ [((k₀, t₀), (Allow rl k₀ t₀).1)]) (Allow rl k₀ t₀).2 := by
        rw [hwin]
        exact coh_allow rl h k₀ t₀ hcoh hbt₀
      have hhb' : ∀ e' ∈ h ++ [((k₀, t₀), (Allow rl k₀ t₀).1)],
          ∀ c ∈ rest, e'.1.2 ≤ c.2 := by
        intro e' he' c hc
        rcases List.mem_append.1 he' with h' | h'
        · exact hhb e' h' c (List.mem_cons_of_mem _ hc)
        · have : e' = ((k₀, t₀), (Allow rl k₀ t₀).1) := by simpa using h'
          subst this
          exact hhead c hc
      have := ih (Allow rl k₀ t₀).2 (h ++ [((k₀, t₀), (Allow rl k₀ t₀).1)])
        hcoh' hhb' hrest pre' key now b suf hrun'
      rw [hwin, hlim] at this
      rw [← he]
      have harr : h ++ [((k₀, t₀), (Allow rl k₀ t₀).1)] ++ pre' =
          h ++ ((k₀, t₀), (Allow rl k₀ t₀).1) :: pre' := by simp
      rw [harr] at this
      exact this

theorem runAllow_interval (limit window : Nat) (calls : List (String × Nat))
    (hmono : List.Pairwise (fun a b : String × Nat => a.2 ≤ b.2) calls)
    (key : String) (a : Nat) :
    trueInInterval key a window (runAllow (NewRateLimiter limit window) calls) ≤ limit := by
  suffices H : ∀ l₁ : List ((String × Nat) × Bool),
      (∃ l₂, runAllow (NewRateLimiter limit window) calls = l₁ ++ l₂) →
      trueInInterval key a window l₁ ≤ limit by
    exact H _ ⟨[], (List.append_nil _).symm⟩
  intro l₁
  induction l₁ using List.reverseRecOn with
  | nil => intro _; simp [trueInInterval, trueTimes]
  | append_singleton l₁ e ihl =>
    intro ⟨l₂, hl⟩
    have hl' : runAllow (NewRateLimiter limit window) calls = l₁ ++ e :: l₂ := by
      simpa [List.append_assoc] using hl
    have hcount : trueInInterval key a window (l₁ ++ [e]) =
        trueInInterval key a window l₁ +
          trueInInterval key a window [e] := by
      unfold trueInInterval
      rw [trueTimes_append, List.filter_append, List.length_append]
    by_cases hP : (e.1.1 == key && e.2) = true ∧ (a ≤ e.1.2 ∧ e.1.2 ≤ a + window)
    · obtain ⟨hke, hint⟩ := hP
      have hke' : (e.1.1 == key) = true ∧ e.2 = true := by
        rw [← Bool.and_eq_true]
        exact hke
      have hkey : e.1.1 = key := eq_of_beq hke'.1
      have htrue : e.2 = true := hke'.2
      have hdecomp : runAllow (NewRateLimiter limit window) calls =
          l₁ ++ ((key, e.1.2), true) :: l₂ := by
        rw [hl']
        congr 1
        rw [← hkey, ← htrue]
      have hiff := runAllow_count calls (NewRateLimiter limit window) []
        (coh_init limit window) (by simp) hmono l₁ key e.1.2 true l₂ hdecomp
      have hlt : withinWindowTrue window key e.1.2 l₁ < limit := by
        by_contra hge
        have : (true : Bool) = false := by
          apply hiff.2
          simpa using Nat.le_of_not_lt hge
        simp at this
      have hmono2 : trueInInterval key a window l₁ ≤
          withinWindowTrue window key e.1.2 l₁ := by
        unfold trueInInterval withinWindowTrue
        apply length_filter_mono
        intro t _ hin
        have hinP : a ≤ t ∧ t ≤ a + window := of_decide_eq_true hin
        have : e.1.2 - t ≤ window := by omega
        exact decide_eq_true this
      have hone : trueInInterval key a window [e] ≤ 1 := by
        unfold trueInInterval
        have : trueTimes [e] key = [e.1.2] := by
          simp [trueTimes, List.filter_cons, hke]
        rw [this]
        simp [List.filter]
        split <;> simp
      omega
    · have hzero : trueInInterval key a window [e] = 0 := by
        unfold trueInInterval
        by_cases hke : (e.1.1 == key && e.2) = true
        · have hint : ¬(a ≤ e.1.2 ∧ e.1.2 ≤ a + window) := fun hc => hP ⟨hke, hc⟩
          simp [trueTimes, List.filter_cons, hke, hint]
        · simp [trueTimes, List.filter_cons, hke]
      have := ihl ⟨e :: l₂, hl'⟩
      omega

/-- C5: the rate limiter implements a sliding window per key: with each
call modelled at a timestamp and timestamps non-decreasing along the
trace, a call returns false exactly when at least `limit` earlier
true-returning calls for its key fall within the trailing window before
it; consequently at most `limit` calls per key return true inside any
closed interval of length `window`. -/
theorem rateLimiter_sliding_window (limit window : Nat)
    (calls : List (String × Nat))
    (hmono : List.Pairwise (fun a b : String × Nat => a.2 ≤ b.2) calls) :
    (∀ pre key now b suf,
        runAllow (NewRateLimiter limit window) calls = pre ++ ((key, now), b) :: suf →
        (b = false ↔ limit ≤ withinWindowTrue window key now pre)) ∧
    (∀ key a,
        trueInInterval key a window
          (runAllow (NewRateLimiter limit window) calls) ≤ limit) := by
  constructor
  · intro pre key now b suf hrun
    have := runAllow_count calls (NewRateLimiter limit window) []
      (coh_init limit window) (by simp) hmono pre key now b suf hrun
    simpa using this
  · intro key a
    exact runAllow_interval limit window calls hmono key a

/-- Witness for C5: with limit 2 and window 10, the third call for a key at
times 0, 1, 2 is refused because two within-window true calls precede it. -/
theorem rateLimiter_sliding_window_witness :
    ((false : Bool) = false ↔
      2 ≤ withinWindowTrue 10 "k" 2 [(("k", 0), true), (("k", 1), true)]) :=
  (rateLimiter_sliding_window 2 10 [("k", 0), ("k", 1), ("k", 2), ("k", 15)]
      (by decide)).1
    [(("k", 0), true), (("k", 1), true)] "k" 2 false [(("k", 15), true)]
    (by decide)

end GoDocs
